import Mathlib

/-!
# TimeSyncServer: the wire records and the exchange loop of `src/main.cpp`

A shallow embedding of the UDP time responder.  Buffers are lists of bytes of a
fixed length, the environment (what `recvfrom` delivers, what `gettimeofday`
reads, what `sendto` returns) is an explicit input of every loop iteration, and
the process either keeps running with its two buffers or has exited with a
status code.  Socket set-up, daemonisation and the peer address are not part of
the model.
-/

set_option autoImplicit false

namespace TimeSyncServer

/-! ## Bytes and host integers -/

/-- One octet of memory or of a datagram. -/
abbrev Byte := Fin 256

/-- Two to the power 64, the number of values of a `uint64_t`. -/
abbrev twoPow64 : Nat := 18446744073709551616

/-- A value of C type `uint64_t`. -/
abbrev UInt64Val := Fin twoPow64

/-- Byte order of the host.  The program stores multi-byte integers with plain
assignments, so the order in memory (and on the wire) is the one of the host. -/
inductive ByteOrder where
  | little
  | big
  deriving DecidableEq, Repr

/-- A region of memory of exactly `n` octets (a `char[n]`). -/
abbrev Buffer (n : Nat) := { l : List Byte // l.length = n }

/-- The `k` low-order octets of `v`, least significant first. -/
def encodeLE : (k : Nat) → Nat → Buffer k
  | 0, _ => ⟨[], rfl⟩
  | k + 1, v =>
    ⟨⟨v % 256, Nat.mod_lt v (by decide)⟩ :: (encodeLE k (v / 256)).val, by
      simp [(encodeLE k (v / 256)).property]⟩

/-- The number whose octets, least significant first, are `bs`. -/
def decodeLE : List Byte → Nat
  | [] => 0
  | b :: bs => b.val + 256 * decodeLE bs

/-- Object representation of a `uint64_t` holding `v` on a host of order `o`. -/
def encodeU64 (o : ByteOrder) (v : Nat) : Buffer 8 :=
  match o with
  | .little => encodeLE 8 v
  | .big => ⟨(encodeLE 8 v).val.reverse, by simp [(encodeLE 8 v).property]⟩

/-- Value of the `uint64_t` whose object representation is `bs`. -/
def decodeU64 (o : ByteOrder) (bs : List Byte) : Nat :=
  match o with
  | .little => decodeLE bs
  | .big => decodeLE bs.reverse

/-- The conversion `(uint64_t) x` of a signed integer: reduction modulo 2^64. -/
def toUInt64 (x : Int) : Nat := (x % (twoPow64 : Int)).toNat

/-! ## Memory operations -/

/-- Octets `off .. off + len - 1` of a buffer. -/
def slice {n : Nat} (buf : Buffer n) (off len : Nat) (h : off + len ≤ n) : Buffer len :=
  ⟨(buf.val.drop off).take len, by simp [buf.property]; omega⟩

/-- The octet at offset `off` of a buffer. -/
def byteAt {n : Nat} (buf : Buffer n) (off : Nat) (h : off < n) : Byte :=
  buf.val.get ⟨off, by rw [buf.property]; exact h⟩

/-- Read of a `uint64_t` object at offset `off`. -/
def loadU64 (o : ByteOrder) {n : Nat} (buf : Buffer n) (off : Nat) (h : off + 8 ≤ n) :
    UInt64Val :=
  ⟨decodeU64 o (slice buf off 8 h).val % twoPow64, Nat.mod_lt _ (by decide)⟩

/-- Assignment to a `uint64_t` object at offset `off` of a buffer. -/
def storeU64 (o : ByteOrder) {n : Nat} (buf : Buffer n) (off : Nat) (v : Nat)
    (h : off + 8 ≤ n) : Buffer n :=
  ⟨buf.val.take off ++ (encodeU64 o v).val ++ buf.val.drop (off + 8), by
    simp [buf.property, (encodeU64 o v).property]; omega⟩

/-- The call `bzero(buf, k)`: the first `k` octets become zero. -/
def bzero {n : Nat} (buf : Buffer n) (k : Nat) (h : k ≤ n) : Buffer n :=
  ⟨List.replicate k 0 ++ buf.val.drop k, by simp [buf.property]; omega⟩

/-- The call `memcpy(dst, src, k)`: the first `k` octets of `dst` become the
first `k` octets of `src`. -/
def memcpy {m n : Nat} (dst : Buffer m) (src : Buffer n) (k : Nat) (hd : k ≤ m)
    (hs : k ≤ n) : Buffer m :=
  ⟨src.val.take k ++ dst.val.drop k, by simp [dst.property, src.property]; omega⟩

/-! ## The packed records -/

/-- The request record, `struct __attribute__((__packed__)) TimeRequest`. -/
structure TimeRequest where
  protocol : Buffer 3
  protocolVersion : Byte
  unused : Buffer 4
  clientCookie : UInt64Val
  deriving DecidableEq

/-- The reply record, `struct __attribute__((__packed__)) TimeReply`. -/
structure TimeReply where
  protocol : Buffer 3
  protocolVersion : Byte
  unused : Buffer 4
  clientCookie : UInt64Val
  timeSinceEphoc1970Ms : UInt64Val
  deriving DecidableEq

/-- The constant `sizeof(TimeRequest)`: a packed record has no padding, its size
is the sum of the sizes of its members. -/
abbrev TimeRequestPacketSize : Nat := 3 + 1 + 4 + 8

/-- The constant `sizeof(TimeReply)`. -/
abbrev TimeReplyPacketSize : Nat := 3 + 1 + 4 + 8 + 8

/-- Offset of the member `timeSinceEphoc1970Ms` inside a packed `TimeReply`:
the sizes of the members declared before it. -/
abbrev offsetTimeSinceEphoc1970Ms : Nat := 3 + 1 + 4 + 8

/-- Memory image (and wire form) of a request: the members in declaration
order, without padding. -/
def TimeRequest.toBytes (o : ByteOrder) (x : TimeRequest) : Buffer TimeRequestPacketSize :=
  ⟨x.protocol.val ++ [x.protocolVersion] ++ x.unused.val ++ (encodeU64 o x.clientCookie.val).val,
    by simp [x.protocol.property, x.unused.property, (encodeU64 o x.clientCookie.val).property]⟩

/-- Memory image (and wire form) of a reply. -/
def TimeReply.toBytes (o : ByteOrder) (x : TimeReply) : Buffer TimeReplyPacketSize :=
  ⟨x.protocol.val ++ [x.protocolVersion] ++ x.unused.val ++ (encodeU64 o x.clientCookie.val).val
      ++ (encodeU64 o x.timeSinceEphoc1970Ms.val).val,
    by simp [x.protocol.property, x.unused.property, (encodeU64 o x.clientCookie.val).property,
      (encodeU64 o x.timeSinceEphoc1970Ms.val).property]⟩

/-- The request seen through a `TimeRequest *` pointing at the buffer. -/
def TimeRequest.ofBytes (o : ByteOrder) (buf : Buffer TimeRequestPacketSize) : TimeRequest :=
  { protocol := slice buf 0 3 (by decide)
    protocolVersion := byteAt buf 3 (by decide)
    unused := slice buf 4 4 (by decide)
    clientCookie := loadU64 o buf 8 (by decide) }

/-- The reply seen through a `TimeReply *` pointing at the buffer. -/
def TimeReply.ofBytes (o : ByteOrder) (buf : Buffer TimeReplyPacketSize) : TimeReply :=
  { protocol := slice buf 0 3 (by decide)
    protocolVersion := byteAt buf 3 (by decide)
    unused := slice buf 4 4 (by decide)
    clientCookie := loadU64 o buf 8 (by decide)
    timeSinceEphoc1970Ms := loadU64 o buf offsetTimeSinceEphoc1970Ms (by decide) }

/-! ## The environment of one iteration -/

/-- What the call to `recvfrom` meets: a failure, or a datagram with its
payload (of any length). -/
inductive Incoming where
  | failure
  | datagram (payload : List Byte)
  deriving DecidableEq

/-- The call `recvfrom(sockfd, buf, len, 0, ...)` on a datagram socket: at most
`len` octets of the payload are stored at the start of the buffer and their
number is returned, the excess of a longer datagram is dropped; a failure
returns -1 and leaves the buffer alone. -/
def recvfrom {n : Nat} (buf : Buffer n) (len : Nat) (h : len ≤ n) :
    Incoming → Buffer n × Int
  | .failure => (buf, -1)
  | .datagram p =>
    (⟨p.take len ++ buf.val.drop (min len p.length), by simp [buf.property]; omega⟩,
      ((min len p.length : Nat) : Int))

/-- Least value of a signed 64-bit integer. -/
abbrev int64Min : Int := -9223372036854775808

/-- Greatest value of a signed 64-bit integer. -/
abbrev int64Max : Int := 9223372036854775807

/-- The clock reading filled in by `gettimeofday`, `struct timeval`.  The two
members have the signed integer types `time_t` and `suseconds_t`, at most 64
bits wide. -/
structure timeval where
  tv_sec : Int
  tv_usec : Int
  tv_sec_range : int64Min ≤ tv_sec ∧ tv_sec ≤ int64Max
  tv_usec_range : int64Min ≤ tv_usec ∧ tv_usec ≤ int64Max
  deriving DecidableEq

/-- The expression
`((uint64_t)(tv.tv_sec)) * 1000 + ((uint64_t)(tv.tv_usec)) / 1000`,
every operation on `uint64_t`. -/
def curr_time_ms_since_epoch (tv : timeval) : Nat :=
  ((toUInt64 tv.tv_sec * 1000) % twoPow64 + toUInt64 tv.tv_usec / 1000) % twoPow64

/-- Everything the environment contributes to one iteration: what `recvfrom`
meets, what `gettimeofday` reads, what `sendto` returns. -/
structure Event where
  incoming : Incoming
  tv : timeval
  sendResult : Int
  deriving DecidableEq

/-! ## The loop -/

/-- The two buffers of `main` that live across iterations.  Their contents on
entry to the loop are arbitrary. -/
structure LoopState where
  requestBuffer : Buffer TimeRequestPacketSize
  replyBuffer : Buffer TimeReplyPacketSize
  deriving DecidableEq

/-- The process after an iteration: still in the loop, or gone through
`exit(code)`. -/
inductive Status where
  | running (s : LoopState)
  | exited (code : Nat)
  deriving DecidableEq

/-- Outcome of one iteration: the octets handed to `sendto` (if the call was
reached) and the process status. -/
structure StepResult where
  sent : Option (List Byte)
  status : Status
  deriving DecidableEq

/-- The function `error`: `exit(1)`. -/
def error : Status := .exited 1

/-- One iteration of the body of `while (1)` in `main`. -/
def step (o : ByteOrder) (s : LoopState) (e : Event) : StepResult :=
  let zeroed := bzero s.requestBuffer TimeRequestPacketSize (Nat.le_refl _)
  let received := recvfrom zeroed TimeRequestPacketSize (Nat.le_refl _) e.incoming
  let requestBuffer := received.1
  let n := received.2
  if n < 0 then
    { sent := none, status := error }
  else
    let curr := curr_time_ms_since_epoch e.tv
    let copied := memcpy s.replyBuffer requestBuffer TimeRequestPacketSize (by decide)
      (Nat.le_refl _)
    let replyBuffer := storeU64 o copied offsetTimeSinceEphoc1970Ms curr (by decide)
    let out := replyBuffer.val.take TimeReplyPacketSize
    if e.sendResult < 0 then
      { sent := some out, status := error }
    else
      { sent := some out, status := .running ⟨requestBuffer, replyBuffer⟩ }

/-- The loop driven by a finite sequence of events: the datagrams handed to
`sendto` so far, in order, and the status reached.  Once the process has exited
the remaining events are not consumed. -/
def run (o : ByteOrder) : LoopState → List Event → List (List Byte) × Status
  | s, [] => ([], .running s)
  | s, e :: es =>
    let r := step o s e
    match r.status with
    | .exited c => (r.sent.toList, .exited c)
    | .running s' => (r.sent.toList ++ (run o s' es).1, (run o s' es).2)

/-! ## Sample inputs -/

/-- Buffers holding zeros only. -/
def zeroState : LoopState :=
  ⟨⟨List.replicate 16 0, rfl⟩, ⟨List.replicate 24 0, rfl⟩⟩

/-- Buffers holding the octet 255 only. -/
def onesState : LoopState :=
  ⟨⟨List.replicate 16 255, rfl⟩, ⟨List.replicate 24 255, rfl⟩⟩

/-- A well-formed request: tag "TSP", version 1, cookie octets 1 to 8. -/
def sampleRequest : List Byte :=
  [84, 83, 80, 1, 0, 0, 0, 0, 1, 2, 3, 4, 5, 6, 7, 8]

/-- A 16-octet payload whose tag is "XYZ" and whose version is 7. -/
def sampleForeignRequest : List Byte :=
  [88, 89, 90, 7, 9, 9, 9, 9, 17, 34, 51, 68, 85, 102, 119, 136]

/-- A 10-octet payload: too short for a request. -/
def sampleShortPayload : List Byte :=
  [84, 83, 80, 1, 0, 0, 0, 0, 170, 187]

/-- A clock reading: 1700000000 s and 123456 microseconds after the epoch. -/
def sampleClock : timeval := ⟨1700000000, 123456, by decide, by decide⟩

/-- A later clock reading, in the next second. -/
def sampleLaterClock : timeval := ⟨1700000001, 250, by decide, by decide⟩

/-- The reply to `sampleRequest` at `sampleClock` on a little-endian host. -/
def sampleReply : Buffer TimeReplyPacketSize :=
  ⟨sampleRequest ++ [123, 104, 229, 207, 139, 1, 0, 0], by decide⟩

/-- The reply to `sampleRequest` at `sampleLaterClock` on a little-endian host. -/
def sampleLaterReply : Buffer TimeReplyPacketSize :=
  ⟨sampleRequest ++ [232, 107, 229, 207, 139, 1, 0, 0], by decide⟩

/-- The buffers left by the exchange of `sampleForeignRequest` at `sampleClock`
on a little-endian host. -/
def afterForeignState : LoopState :=
  ⟨⟨sampleForeignRequest, by decide⟩,
    ⟨sampleForeignRequest ++ [123, 104, 229, 207, 139, 1, 0, 0], by decide⟩⟩

/-! ## Host integers: encoding and decoding are inverse -/

theorem decodeLE_encodeLE (k v : Nat) : decodeLE (encodeLE k v).val = v % 256 ^ k := by
  induction k generalizing v with
  | zero => simp [encodeLE, decodeLE, Nat.mod_one]
  | succ k ih =>
    simp only [encodeLE, decodeLE, ih]
    rw [pow_succ, Nat.mul_comm (256 ^ k) 256, Nat.mod_mul]

theorem decodeLE_lt (bs : List Byte) : decodeLE bs < 256 ^ bs.length := by
  induction bs with
  | nil => simp [decodeLE]
  | cons b bs ih =>
    simp only [decodeLE, List.length_cons, pow_succ]
    have := b.isLt
    omega

theorem encodeLE_decodeLE (bs : List Byte) : (encodeLE bs.length (decodeLE bs)).val = bs := by
  induction bs with
  | nil => simp [encodeLE]
  | cons b bs ih =>
    have hb := b.isLt
    have h1 : (b.val + 256 * decodeLE bs) % 256 = b.val := by omega
    have h2 : (b.val + 256 * decodeLE bs) / 256 = decodeLE bs := by omega
    simp only [List.length_cons, encodeLE, decodeLE, h1, h2, ih]

theorem decodeU64_encodeU64 (o : ByteOrder) (v : Nat) :
    decodeU64 o (encodeU64 o v).val = v % twoPow64 := by
  cases o <;> simp [decodeU64, encodeU64, decodeLE_encodeLE]

theorem encodeU64_decodeU64 (o : ByteOrder) (bs : Buffer 8) :
    (encodeU64 o (decodeU64 o bs.val)).val = bs.val := by
  cases o with
  | little =>
    have h := encodeLE_decodeLE bs.val
    rw [bs.property] at h
    simpa [decodeU64, encodeU64] using h
  | big =>
    have h := encodeLE_decodeLE bs.val.reverse
    rw [List.length_reverse, bs.property] at h
    simp [decodeU64, encodeU64, h]

theorem decodeU64_lt (o : ByteOrder) (bs : Buffer 8) : decodeU64 o bs.val < twoPow64 := by
  cases o with
  | little =>
    have h := decodeLE_lt bs.val
    rw [bs.property] at h
    simpa [decodeU64] using h
  | big =>
    have h := decodeLE_lt bs.val.reverse
    rw [List.length_reverse, bs.property] at h
    simpa [decodeU64] using h

/-! ## What one iteration does -/

/-- The request buffer after `bzero` and `recvfrom` of a payload: the (at most
16) stored octets of the payload followed by zeros. -/
theorem received_val (req : Buffer TimeRequestPacketSize) (p : List Byte) :
    (recvfrom (bzero req TimeRequestPacketSize (Nat.le_refl _)) TimeRequestPacketSize
        (Nat.le_refl _) (.datagram p)).1.val
      = p.take 16 ++ List.replicate (16 - p.length) 0 := by
  have hreq : req.val.length = 16 := req.property
  have hdrop : req.val.drop 16 = [] := List.drop_eq_nil_of_le (by omega)
  simp only [recvfrom, bzero, hdrop, List.append_nil, List.drop_replicate]
  congr 2
  omega

theorem received_count (req : Buffer TimeRequestPacketSize) (p : List Byte) :
    (recvfrom (bzero req TimeRequestPacketSize (Nat.le_refl _)) TimeRequestPacketSize
        (Nat.le_refl _) (.datagram p)).2 = ((min 16 p.length : Nat) : Int) := rfl

/-- The reply buffer after `memcpy` of a request buffer and the store of the
timestamp: nothing of its earlier contents is left. -/
theorem reply_val (o : ByteOrder) (rep : Buffer TimeReplyPacketSize)
    (req : Buffer TimeRequestPacketSize) (v : Nat) :
    (storeU64 o (memcpy rep req TimeRequestPacketSize (by decide) (Nat.le_refl _))
        offsetTimeSinceEphoc1970Ms v (by decide)).val
      = req.val ++ (encodeU64 o v).val := by
  have hreq : req.val.length = 16 := req.property
  have hrep : rep.val.length = 24 := rep.property
  have h1 : req.val.take 16 = req.val := List.take_of_length_le (by omega)
  have h2 : (req.val ++ rep.val.drop 16).take 16 = req.val := by
    rw [List.take_append_of_le_length (by omega), h1]
  have h3 : (req.val ++ rep.val.drop 16).drop (16 + 8) = [] :=
    List.drop_eq_nil_of_le (by simp [hreq, hrep])
  simp only [storeU64, memcpy, h1, h2, h3, List.append_nil]

/-- The reply octets for a payload and a clock reading: the first 16 octets of
the payload, zero up to offset 16 when the payload is shorter, then the
timestamp. -/
theorem step_datagram_sent (o : ByteOrder) (s : LoopState) (p : List Byte) (tv : timeval)
    (r : Int) :
    (step o s ⟨.datagram p, tv, r⟩).sent
      = some (p.take 16 ++ List.replicate (16 - p.length) 0
          ++ (encodeU64 o (curr_time_ms_since_epoch tv)).val) := by
  have hn : ¬ (((min 16 p.length : Nat) : Int) < 0) := by omega
  have henc := (encodeU64 o (curr_time_ms_since_epoch tv)).property
  have hlen : (p.take 16 ++ List.replicate (16 - p.length) 0
      ++ (encodeU64 o (curr_time_ms_since_epoch tv)).val).length ≤ 24 := by
    simp [henc]; omega
  simp only [step, received_count, hn, if_false, reply_val, received_val]
  split <;> simp only [List.take_of_length_le hlen]

/-- The status after an iteration that received a payload: decided by the
result of `sendto` alone. -/
theorem step_datagram_status (o : ByteOrder) (s : LoopState) (p : List Byte) (tv : timeval)
    (r : Int) :
    (step o s ⟨.datagram p, tv, r⟩).status
      = if r < 0 then Status.exited 1
        else Status.running
          ⟨(recvfrom (bzero s.requestBuffer TimeRequestPacketSize (Nat.le_refl _))
              TimeRequestPacketSize (Nat.le_refl _) (.datagram p)).1,
            storeU64 o
              (memcpy s.replyBuffer
                (recvfrom (bzero s.requestBuffer TimeRequestPacketSize (Nat.le_refl _))
                  TimeRequestPacketSize (Nat.le_refl _) (.datagram p)).1
                TimeRequestPacketSize (by decide) (Nat.le_refl _))
              offsetTimeSinceEphoc1970Ms (curr_time_ms_since_epoch tv) (by decide)⟩ := by
  have hn : ¬ (((min 16 p.length : Nat) : Int) < 0) := by omega
  simp only [step, received_count, hn, if_false]
  split <;> rfl

/-- A failed `recvfrom` ends the process with status 1 before anything is sent. -/
theorem step_failure (o : ByteOrder) (s : LoopState) (tv : timeval) (r : Int) :
    step o s ⟨.failure, tv, r⟩ = ⟨none, .exited 1⟩ := by
  simp [step, recvfrom, error]

/-! ## The header of the reply -/

/-- C1: for every 16-octet datagram, whatever its tag and version octets, every
clock reading, every earlier content of the buffers and every host byte order,
one iteration hands to `sendto` a reply whose first 16 octets are the octets of
the datagram. -/
theorem reply_header_echoes_request (o : ByteOrder) (s : LoopState) (p : List Byte)
    (tv : timeval) (r : Int) (hp : p.length = TimeRequestPacketSize) :
    ∃ reply, (step o s ⟨.datagram p, tv, r⟩).sent = some reply ∧ reply.take 16 = p := by
  have hp16 : p.length = 16 := hp
  refine ⟨_, step_datagram_sent o s p tv r, ?_⟩
  have h0 : 16 - p.length = 0 := by omega
  have ht : p.take 16 = p := List.take_of_length_le (by omega)
  rw [h0, ht, List.replicate_zero, List.append_nil, List.take_append_of_le_length (by omega)]
  exact List.take_of_length_le (by omega)

theorem reply_header_echoes_request_witness :
    sampleForeignRequest.length = TimeRequestPacketSize
      ∧ ∃ reply, (step .big onesState ⟨.datagram sampleForeignRequest, sampleClock, 24⟩).sent
            = some reply ∧ reply.take 16 = sampleForeignRequest :=
  ⟨rfl, reply_header_echoes_request .big onesState sampleForeignRequest sampleClock 24 rfl⟩

/-! ## The timestamp of the reply -/

theorem curr_time_ms_since_epoch_eq (tv : timeval) :
    curr_time_ms_since_epoch tv
      = (toUInt64 tv.tv_sec * 1000 + toUInt64 tv.tv_usec / 1000) % twoPow64 := by
  simp [curr_time_ms_since_epoch, Nat.add_mod]

theorem curr_time_ms_since_epoch_lt (tv : timeval) : curr_time_ms_since_epoch tv < twoPow64 :=
  Nat.mod_lt _ (by decide)

/-- Octets 16 to 23 of a reply handed to `sendto` are the object representation
of the timestamp. -/
theorem sent_timestamp_octets (o : ByteOrder) (s : LoopState) (p : List Byte) (tv : timeval)
    (r : Int) (reply : List Byte) (h : (step o s ⟨.datagram p, tv, r⟩).sent = some reply) :
    (reply.drop 16).take 8 = (encodeU64 o (curr_time_ms_since_epoch tv)).val := by
  have henc := (encodeU64 o (curr_time_ms_since_epoch tv)).property
  have hlen : (p.take 16 ++ List.replicate (16 - p.length) 0).length = 16 := by
    simp; omega
  rw [step_datagram_sent] at h
  rw [← Option.some.inj h, List.drop_append_of_le_length (by omega),
    List.drop_of_length_le (by omega), List.nil_append]
  exact List.take_of_length_le (by omega)

/-- The timestamp member of a reply handed to `sendto`, read through the record. -/
theorem sent_timestamp_member (o : ByteOrder) (s : LoopState) (p : List Byte) (tv : timeval)
    (r : Int) (reply : Buffer TimeReplyPacketSize)
    (h : (step o s ⟨.datagram p, tv, r⟩).sent = some reply.val) :
    (TimeReply.ofBytes o reply).timeSinceEphoc1970Ms.val = curr_time_ms_since_epoch tv := by
  have hoct := sent_timestamp_octets o s p tv r reply.val h
  simp only [TimeReply.ofBytes, loadU64, slice, hoct, decodeU64_encodeU64, Nat.mod_mod]
  exact Nat.mod_eq_of_lt (curr_time_ms_since_epoch_lt tv)

/-- C2: for every datagram processed and every clock reading, the member
`timeSinceEphoc1970Ms` of the reply, that is the `uint64_t` held by octets 16 to
23, is `tv_sec * 1000 + tv_usec / 1000` computed on unsigned 64-bit integers:
both operands converted modulo 2^64, truncating division, result modulo 2^64. -/
theorem reply_timestamp_value (o : ByteOrder) (s : LoopState) (p : List Byte) (tv : timeval)
    (r : Int) :
    ∃ reply : Buffer TimeReplyPacketSize,
      (step o s ⟨.datagram p, tv, r⟩).sent = some reply.val
        ∧ (TimeReply.ofBytes o reply).timeSinceEphoc1970Ms.val
            = (toUInt64 tv.tv_sec * 1000 + toUInt64 tv.tv_usec / 1000) % twoPow64
        ∧ decodeU64 o ((reply.val.drop 16).take 8)
            = (toUInt64 tv.tv_sec * 1000 + toUInt64 tv.tv_usec / 1000) % twoPow64 := by
  have henc := (encodeU64 o (curr_time_ms_since_epoch tv)).property
  have hlen : (p.take 16 ++ List.replicate (16 - p.length) 0
      ++ (encodeU64 o (curr_time_ms_since_epoch tv)).val).length = TimeReplyPacketSize := by
    simp [henc, TimeReplyPacketSize]; omega
  have hsent := step_datagram_sent o s p tv r
  refine ⟨⟨_, hlen⟩, hsent, ?_, ?_⟩
  · rw [sent_timestamp_member o s p tv r ⟨_, hlen⟩ hsent, curr_time_ms_since_epoch_eq]
  · rw [sent_timestamp_octets o s p tv r _ hsent, decodeU64_encodeU64,
      Nat.mod_eq_of_lt (curr_time_ms_since_epoch_lt tv), curr_time_ms_since_epoch_eq]

/-! ## Sizes -/

theorem step_sent_length (o : ByteOrder) (s : LoopState) (e : Event) :
    (step o s e).sent.all (fun reply => decide (reply.length = 24)) = true := by
  obtain ⟨inc, tv, r⟩ := e
  cases inc with
  | failure => simp [step_failure]
  | datagram p =>
    have henc := (encodeU64 o (curr_time_ms_since_epoch tv)).property
    rw [step_datagram_sent]
    simp [henc]
    omega

theorem run_sent_length (o : ByteOrder) (s : LoopState) (es : List Event) :
    (run o s es).1.all (fun reply => decide (reply.length = 24)) = true := by
  induction es generalizing s with
  | nil => simp [run]
  | cons e es ih =>
    have hstep := step_sent_length o s e
    simp only [run]
    split
    · cases hs : (step o s e).sent with
      | none => simp
      | some reply => simpa [hs] using hstep
    · rename_i t _
      rw [List.all_append, ih t, Bool.and_true]
      cases hs : (step o s e).sent with
      | none => simp
      | some reply => simpa [hs] using hstep

/-- C3: the packed request record is 16 octets (3+1+4+8) and the packed reply
record 24 octets (16 of header, 8 of timestamp), as constants and as the length
of every memory image; for every received datagram the reply handed to `sendto`
is exactly 24 octets long, and so is every reply sent in any run of the loop. -/
theorem packet_sizes :
    TimeRequestPacketSize = 16 ∧ TimeReplyPacketSize = 24
      ∧ (∀ (o : ByteOrder) (x : TimeRequest), (x.toBytes o).val.length = 16)
      ∧ (∀ (o : ByteOrder) (x : TimeReply), (x.toBytes o).val.length = 24)
      ∧ (∀ (o : ByteOrder) (s : LoopState) (p : List Byte) (tv : timeval) (r : Int),
          ∃ reply, (step o s ⟨.datagram p, tv, r⟩).sent = some reply ∧ reply.length = 24)
      ∧ (∀ (o : ByteOrder) (s : LoopState) (es : List Event),
          (run o s es).1.all (fun reply => decide (reply.length = 24)) = true) := by
  refine ⟨rfl, rfl, fun o x => (x.toBytes o).property, fun o x => (x.toBytes o).property,
    ?_, run_sent_length⟩
  intro o s p tv r
  have henc := (encodeU64 o (curr_time_ms_since_epoch tv)).property
  refine ⟨_, step_datagram_sent o s p tv r, ?_⟩
  simp [henc]
  omega

/-! ## Arithmetic of the timestamp -/

theorem toUInt64_of_nonneg (x : Int) (h0 : 0 ≤ x) (h1 : x ≤ int64Max) :
    (toUInt64 x : Int) = x := by
  rw [toUInt64, Int.toNat_of_nonneg (Int.emod_nonneg _ (by decide))]
  exact Int.emod_eq_of_lt h0 (by simp only [twoPow64, int64Max] at *; omega)

/-- Without wrap-around the timestamp is the plain integer expression. -/
theorem curr_time_ms_since_epoch_of_nonneg (tv : timeval) (hs : 0 ≤ tv.tv_sec)
    (hu : 0 ≤ tv.tv_usec) (hw : tv.tv_sec * 1000 + tv.tv_usec / 1000 < (twoPow64 : Int)) :
    (curr_time_ms_since_epoch tv : Int) = tv.tv_sec * 1000 + tv.tv_usec / 1000 := by
  have h1 := toUInt64_of_nonneg tv.tv_sec hs tv.tv_sec_range.2
  have h2 := toUInt64_of_nonneg tv.tv_usec hu tv.tv_usec_range.2
  rw [curr_time_ms_since_epoch_eq]
  push_cast
  rw [h1, h2]
  exact Int.emod_eq_of_lt (by omega) hw

/-- C10: for a clock reading with `tv_sec >= 0`, `tv_usec >= 0` and no
wrap-around of 64 bits, the timestamp `ts` is the floor of the reading in
milliseconds: `ts = (tv_sec * 1000000 + tv_usec) / 1000`, so
`1000 * ts <= tv_sec * 1000000 + tv_usec < 1000 * (ts + 1)`. -/
theorem timestamp_is_floor_of_clock (tv : timeval) (hs : 0 ≤ tv.tv_sec) (hu : 0 ≤ tv.tv_usec)
    (hw : tv.tv_sec * 1000 + tv.tv_usec / 1000 < (twoPow64 : Int)) :
    (curr_time_ms_since_epoch tv : Int) = (tv.tv_sec * 1000000 + tv.tv_usec) / 1000
      ∧ 1000 * (curr_time_ms_since_epoch tv : Int) ≤ tv.tv_sec * 1000000 + tv.tv_usec
      ∧ tv.tv_sec * 1000000 + tv.tv_usec < 1000 * ((curr_time_ms_since_epoch tv : Int) + 1) := by
  rw [curr_time_ms_since_epoch_of_nonneg tv hs hu hw]
  refine ⟨?_, ?_, ?_⟩ <;> omega

theorem timestamp_is_floor_of_clock_witness :
    (curr_time_ms_since_epoch sampleClock : Int)
        = (sampleClock.tv_sec * 1000000 + sampleClock.tv_usec) / 1000
      ∧ 1000 * (curr_time_ms_since_epoch sampleClock : Int)
          ≤ sampleClock.tv_sec * 1000000 + sampleClock.tv_usec
      ∧ sampleClock.tv_sec * 1000000 + sampleClock.tv_usec
          < 1000 * ((curr_time_ms_since_epoch sampleClock : Int) + 1) :=
  timestamp_is_floor_of_clock sampleClock (by decide) (by decide) (by decide)

/-- C4: two exchanges, from any buffer contents, whose clock readings have
`tv_usec < 1000000`, are in lexicographic order (the clock did not go backward)
and do not wrap 64 bits (no negative member turned into a huge unsigned value,
no overflow of the sum): the timestamp member of the earlier reply is at most
the timestamp member of the later reply. -/
theorem reply_timestamps_monotone (o : ByteOrder) (s1 s2 : LoopState) (p1 p2 : List Byte)
    (tv1 tv2 : timeval) (r1 r2 : Int) (reply1 reply2 : Buffer TimeReplyPacketSize)
    (hsent1 : (step o s1 ⟨.datagram p1, tv1, r1⟩).sent = some reply1.val)
    (hsent2 : (step o s2 ⟨.datagram p2, tv2, r2⟩).sent = some reply2.val)
    (husec1 : tv1.tv_usec < 1000000) (husec2 : tv2.tv_usec < 1000000)
    (hlex : tv1.tv_sec < tv2.tv_sec ∨ (tv1.tv_sec = tv2.tv_sec ∧ tv1.tv_usec ≤ tv2.tv_usec))
    (hs1 : 0 ≤ tv1.tv_sec) (hu1 : 0 ≤ tv1.tv_usec)
    (hw1 : tv1.tv_sec * 1000 + tv1.tv_usec / 1000 < (twoPow64 : Int))
    (hs2 : 0 ≤ tv2.tv_sec) (hu2 : 0 ≤ tv2.tv_usec)
    (hw2 : tv2.tv_sec * 1000 + tv2.tv_usec / 1000 < (twoPow64 : Int)) :
    (TimeReply.ofBytes o reply1).timeSinceEphoc1970Ms.val
      ≤ (TimeReply.ofBytes o reply2).timeSinceEphoc1970Ms.val := by
  rw [sent_timestamp_member o s1 p1 tv1 r1 reply1 hsent1,
    sent_timestamp_member o s2 p2 tv2 r2 reply2 hsent2]
  have c1 := curr_time_ms_since_epoch_of_nonneg tv1 hs1 hu1 hw1
  have c2 := curr_time_ms_since_epoch_of_nonneg tv2 hs2 hu2 hw2
  have : (curr_time_ms_since_epoch tv1 : Int) ≤ (curr_time_ms_since_epoch tv2 : Int) := by
    rw [c1, c2]
    omega
  exact_mod_cast this

theorem reply_timestamps_monotone_witness :
    (step .little zeroState ⟨.datagram sampleRequest, sampleClock, 24⟩).sent
        = some sampleReply.val
      ∧ (step .little onesState ⟨.datagram sampleRequest, sampleLaterClock, 24⟩).sent
        = some sampleLaterReply.val
      ∧ (TimeReply.ofBytes .little sampleReply).timeSinceEphoc1970Ms.val
        ≤ (TimeReply.ofBytes .little sampleLaterReply).timeSinceEphoc1970Ms.val :=
  ⟨by decide, by decide,
    reply_timestamps_monotone .little zeroState onesState sampleRequest sampleRequest
      sampleClock sampleLaterClock 24 24 sampleReply sampleLaterReply (by decide) (by decide)
      (by decide) (by decide) (by decide) (by decide) (by decide) (by decide) (by decide)
      (by decide) (by decide)⟩

/-! ## When the loop exits -/

/-- C6, as the code has it: when the value returned by `recvfrom` is negative,
the iteration ends the process with status 1 and nothing is handed to
`sendto`. -/
theorem negative_receive_count_is_fatal (o : ByteOrder) (s : LoopState) (e : Event)
    (hn : (recvfrom (bzero s.requestBuffer TimeRequestPacketSize (Nat.le_refl _))
        TimeRequestPacketSize (Nat.le_refl _) e.incoming).2 < 0) :
    (step o s e).sent = none ∧ (step o s e).status = .exited 1 := by
  simp only [step, hn, if_true, error, and_self]

theorem negative_receive_count_is_fatal_witness :
    (recvfrom (bzero zeroState.requestBuffer TimeRequestPacketSize (Nat.le_refl _))
        TimeRequestPacketSize (Nat.le_refl _) Incoming.failure).2 < 0
      ∧ (step .little zeroState ⟨.failure, sampleClock, 24⟩).sent = none
      ∧ (step .little zeroState ⟨.failure, sampleClock, 24⟩).status = .exited 1 :=
  ⟨by decide,
    negative_receive_count_is_fatal .little zeroState ⟨.failure, sampleClock, 24⟩ (by decide)⟩

/-- C6 fails as stated: `recvfrom` returns 10, not 16, for the 10-octet payload,
and the iteration neither exits nor withholds the reply. -/
theorem size_mismatch_is_not_fatal :
    (recvfrom (bzero zeroState.requestBuffer TimeRequestPacketSize (Nat.le_refl _))
        TimeRequestPacketSize (Nat.le_refl _) (.datagram sampleShortPayload)).2 = 10
      ∧ (10 : Int) ≠ (TimeRequestPacketSize : Nat)
      ∧ (step .little zeroState ⟨.datagram sampleShortPayload, sampleClock, 24⟩).sent ≠ none
      ∧ ∃ t, (step .little zeroState ⟨.datagram sampleShortPayload, sampleClock, 24⟩).status
          = .running t := by
  refine ⟨by decide, by decide, by decide, ?_⟩
  rw [step_datagram_status]
  exact ⟨_, rfl⟩

/-- C5, the code at a 10-octet datagram: whatever the buffers held, the
iteration hands to `sendto` a 24-octet reply made of the 10 octets, 6 zero
octets and the timestamp, and the loop goes on. -/
theorem short_datagram_is_answered (s : LoopState) :
    (step .little s ⟨.datagram sampleShortPayload, sampleClock, 24⟩).sent
        = some ([84, 83, 80, 1, 0, 0, 0, 0, 170, 187] ++ [0, 0, 0, 0, 0, 0]
            ++ [123, 104, 229, 207, 139, 1, 0, 0])
      ∧ ([84, 83, 80, 1, 0, 0, 0, 0, 170, 187] ++ [0, 0, 0, 0, 0, 0]
            ++ [123, 104, 229, 207, 139, 1, 0, 0] : List Byte).length = 24
      ∧ ∃ t, (step .little s ⟨.datagram sampleShortPayload, sampleClock, 24⟩).status
          = .running t := by
  refine ⟨?_, by decide, ?_⟩
  · rw [step_datagram_sent]
    decide
  · rw [step_datagram_status]
    exact ⟨_, rfl⟩

/-! ## Datagrams shorter than a request -/

/-- C9 fails as stated when `sendto` reports an error: the 10-octet payload is
received (count 10, not negative) and the process exits with status 1. -/
theorem short_datagram_exit_on_send_failure :
    sampleShortPayload.length < TimeRequestPacketSize
      ∧ ¬ ((recvfrom (bzero zeroState.requestBuffer TimeRequestPacketSize (Nat.le_refl _))
          TimeRequestPacketSize (Nat.le_refl _) (.datagram sampleShortPayload)).2 < 0)
      ∧ (step .little zeroState ⟨.datagram sampleShortPayload, sampleClock, -1⟩).status
          = .exited 1 := by
  decide

/-- C9, as the code has it: for a datagram of `n < 16` octets the iteration does
not exit at the receive check; it hands to `sendto` a 24-octet reply whose
octets `0 .. n-1` are those of the datagram, whose octets `n .. 15` are zero and
whose octets 16 to 23 hold the timestamp; it goes on to the next receive when
`sendto` returns a non-negative value, and exits with status 1 when `sendto`
returns a negative one. -/
theorem short_datagram_reply (o : ByteOrder) (s : LoopState) (p : List Byte) (tv : timeval)
    (r : Int) (hp : p.length < TimeRequestPacketSize) :
    ∃ reply, (step o s ⟨.datagram p, tv, r⟩).sent = some reply
      ∧ reply.length = 24
      ∧ reply.take p.length = p
      ∧ (reply.drop p.length).take (16 - p.length) = List.replicate (16 - p.length) 0
      ∧ decodeU64 o ((reply.drop 16).take 8) = curr_time_ms_since_epoch tv
      ∧ (0 ≤ r → ∃ t, (step o s ⟨.datagram p, tv, r⟩).status = .running t)
      ∧ (r < 0 → (step o s ⟨.datagram p, tv, r⟩).status = .exited 1) := by
  have hp16 : p.length < 16 := hp
  have henc := (encodeU64 o (curr_time_ms_since_epoch tv)).property
  have ht : p.take 16 = p := List.take_of_length_le (by omega)
  refine ⟨_, step_datagram_sent o s p tv r, ?_, ?_, ?_, ?_, ?_, ?_⟩
  · simp [henc]; omega
  · rw [ht, List.append_assoc, List.take_left]
  · rw [ht, List.append_assoc, List.drop_left, List.take_append_of_le_length (by simp)]
    exact List.take_of_length_le (by simp)
  · rw [List.drop_append_of_le_length (by simp; omega), List.drop_of_length_le (by simp; omega),
      List.nil_append, List.take_of_length_le (by omega), decodeU64_encodeU64]
    exact Nat.mod_eq_of_lt (curr_time_ms_since_epoch_lt tv)
  · intro hr
    rw [step_datagram_status, if_neg (by omega)]
    exact ⟨_, rfl⟩
  · intro hr
    rw [step_datagram_status, if_pos hr]

theorem short_datagram_reply_witness :
    sampleShortPayload.length < TimeRequestPacketSize
      ∧ ∃ reply,
        (step .big onesState ⟨.datagram sampleShortPayload, sampleClock, 24⟩).sent = some reply
        ∧ reply.length = 24
        ∧ reply.take sampleShortPayload.length = sampleShortPayload
        ∧ (reply.drop sampleShortPayload.length).take (16 - sampleShortPayload.length)
            = List.replicate (16 - sampleShortPayload.length) 0
        ∧ decodeU64 .big ((reply.drop 16).take 8) = curr_time_ms_since_epoch sampleClock
        ∧ ((0 : Int) ≤ 24 → ∃ t,
            (step .big onesState ⟨.datagram sampleShortPayload, sampleClock, 24⟩).status
              = .running t)
        ∧ ((24 : Int) < 0 →
            (step .big onesState ⟨.datagram sampleShortPayload, sampleClock, 24⟩).status
              = .exited 1) :=
  ⟨by decide, short_datagram_reply .big onesState sampleShortPayload sampleClock 24 (by decide)⟩

/-! ## No state across datagrams -/

theorem run_append_running (o : ByteOrder) (s : LoopState) (h : List Event) (t : LoopState)
    (es : List Event) (hrun : (run o s h).2 = .running t) :
    run o s (h ++ es) = ((run o s h).1 ++ (run o t es).1, (run o t es).2) := by
  induction h generalizing s with
  | nil =>
    simp only [run, Status.running.injEq] at hrun
    simp [run, hrun]
  | cons e h ih =>
    simp only [List.cons_append, run] at hrun ⊢
    split at hrun
    · simp at hrun
    · rename_i u hu
      have hih := ih u hrun
      simp only [List.append_eq] at hih ⊢
      rw [hih]
      simp

/-- C7: the reply of an exchange is a function of the datagram, the clock
reading and the byte order of the host alone.  Two runs of the loop, from any
initial buffer contents and through any two histories after which the loop is
still running, that now receive the same datagram (of any length) at the same
clock reading append the same 24 octets to what they have sent; nothing of the
buffers left by the histories enters the reply. -/
theorem reply_independent_of_history (o : ByteOrder) (s1 s2 : LoopState)
    (h1 h2 : List Event) (t1 t2 : LoopState) (p : List Byte) (tv : timeval) (r1 r2 : Int)
    (hrun1 : (run o s1 h1).2 = .running t1) (hrun2 : (run o s2 h2).2 = .running t2) :
    ∃ reply,
      reply = p.take 16 ++ List.replicate (16 - p.length) 0
          ++ (encodeU64 o (curr_time_ms_since_epoch tv)).val
      ∧ (run o s1 (h1 ++ [⟨.datagram p, tv, r1⟩])).1 = (run o s1 h1).1 ++ [reply]
      ∧ (run o s2 (h2 ++ [⟨.datagram p, tv, r2⟩])).1 = (run o s2 h2).1 ++ [reply]
      ∧ (step o t1 ⟨.datagram p, tv, r1⟩).sent = some reply
      ∧ (step o t2 ⟨.datagram p, tv, r2⟩).sent = some reply := by
  have hone : ∀ (t : LoopState) (r : Int),
      (run o t [⟨.datagram p, tv, r⟩]).1
        = [p.take 16 ++ List.replicate (16 - p.length) 0
            ++ (encodeU64 o (curr_time_ms_since_epoch tv)).val] := by
    intro t r
    simp only [run]
    split <;> simp [step_datagram_sent]
  refine ⟨_, rfl, ?_, ?_, step_datagram_sent o t1 p tv r1, step_datagram_sent o t2 p tv r2⟩
  · rw [run_append_running o s1 h1 t1 _ hrun1, hone]
  · rw [run_append_running o s2 h2 t2 _ hrun2, hone]

theorem reply_independent_of_history_witness :
    (run .little zeroState []).2 = .running zeroState
      ∧ (run .little onesState [⟨.datagram sampleForeignRequest, sampleClock, 24⟩]).2
          = .running afterForeignState
      ∧ ∃ reply,
        reply = sampleRequest.take 16 ++ List.replicate (16 - sampleRequest.length) 0
            ++ (encodeU64 .little (curr_time_ms_since_epoch sampleLaterClock)).val
        ∧ (run .little zeroState ([] ++ [⟨.datagram sampleRequest, sampleLaterClock, 24⟩])).1
            = (run .little zeroState []).1 ++ [reply]
        ∧ (run .little onesState
              ([⟨.datagram sampleForeignRequest, sampleClock, 24⟩]
                ++ [⟨.datagram sampleRequest, sampleLaterClock, 24⟩])).1
            = (run .little onesState [⟨.datagram sampleForeignRequest, sampleClock, 24⟩]).1
                ++ [reply]
        ∧ (step .little zeroState ⟨.datagram sampleRequest, sampleLaterClock, 24⟩).sent
            = some reply
        ∧ (step .little afterForeignState ⟨.datagram sampleRequest, sampleLaterClock, 24⟩).sent
            = some reply :=
  ⟨by decide, by decide,
    reply_independent_of_history .little zeroState onesState []
      [⟨.datagram sampleForeignRequest, sampleClock, 24⟩] zeroState afterForeignState
      sampleRequest sampleLaterClock 24 24 (by decide) (by decide)⟩

/-! ## Round trip over the wire layout -/

theorem take_drop_glue (l : List Byte) (i k : Nat) :
    (l.drop i).take k ++ l.drop (i + k) = l.drop i := by
  have h := List.take_append_drop k (l.drop i)
  rwa [List.drop_drop] at h

theorem byteAt_glue {n : Nat} (buf : Buffer n) (i : Nat) (h : i < n) :
    byteAt buf i h :: buf.val.drop (i + 1) = buf.val.drop i := by
  have hi : i < buf.val.length := by rw [buf.property]; exact h
  rw [List.drop_eq_getElem_cons hi]
  rfl

theorem loadU64_store (o : ByteOrder) {n : Nat} (buf : Buffer n) (off : Nat)
    (h : off + 8 ≤ n) :
    (encodeU64 o (loadU64 o buf off h).val).val = (buf.val.drop off).take 8 := by
  have hlt := decodeU64_lt o (slice buf off 8 h)
  simp only [loadU64, Nat.mod_eq_of_lt hlt]
  exact encodeU64_decodeU64 o (slice buf off 8 h)

theorem loadU64_append (o : ByteOrder) {n : Nat} (buf : Buffer n) (off : Nat)
    (h : off + 8 ≤ n) (front back : List Byte) (v : UInt64Val) (hfront : front.length = off)
    (hbuf : buf.val = front ++ (encodeU64 o v.val).val ++ back) :
    loadU64 o buf off h = v := by
  have henc := (encodeU64 o v.val).property
  apply Fin.ext
  simp only [loadU64, slice, hbuf]
  rw [List.append_assoc, List.drop_left' hfront, List.take_left' henc, decodeU64_encodeU64,
    Nat.mod_mod]
  exact Nat.mod_eq_of_lt v.isLt

theorem request_toBytes_ofBytes (o : ByteOrder) (buf : Buffer TimeRequestPacketSize) :
    (TimeRequest.ofBytes o buf).toBytes o = buf := by
  apply Subtype.ext
  have hlen : buf.val.length = 16 := buf.property
  simp only [TimeRequest.toBytes, TimeRequest.ofBytes, loadU64_store, slice, List.drop_zero]
  have h8 : (buf.val.drop 8).take 8 = buf.val.drop 8 :=
    List.take_of_length_le (by simp [hlen])
  have h4 := take_drop_glue buf.val 4 4
  have h3 := byteAt_glue buf 3 (by decide)
  have h0 := List.take_append_drop 3 buf.val
  rw [h8, List.append_assoc, h4, List.append_assoc, List.singleton_append, h3, h0]

theorem reply_toBytes_ofBytes (o : ByteOrder) (buf : Buffer TimeReplyPacketSize) :
    (TimeReply.ofBytes o buf).toBytes o = buf := by
  apply Subtype.ext
  have hlen : buf.val.length = 24 := buf.property
  simp only [TimeReply.toBytes, TimeReply.ofBytes, loadU64_store, slice, List.drop_zero]
  have h16 : (buf.val.drop 16).take 8 = buf.val.drop 16 :=
    List.take_of_length_le (by simp [hlen])
  have h8 := take_drop_glue buf.val 8 8
  have h4 := take_drop_glue buf.val 4 4
  have h3 := byteAt_glue buf 3 (by decide)
  have h0 := List.take_append_drop 3 buf.val
  rw [h16, List.append_assoc, h8, List.append_assoc, h4, List.append_assoc,
    List.singleton_append, h3, h0]

theorem header_fields (A U rest : List Byte) (v : Byte) (hA : A.length = 3)
    (hU : U.length = 4) :
    (A ++ [v] ++ U ++ rest).take 3 = A
      ∧ (A ++ [v] ++ U ++ rest).drop 3 = v :: (U ++ rest)
      ∧ ((A ++ [v] ++ U ++ rest).drop 4).take 4 = U := by
  refine ⟨?_, ?_, ?_⟩
  · rw [List.append_assoc, List.append_assoc, List.take_left' hA]
  · rw [List.append_assoc, List.append_assoc, List.drop_left' hA]
    rfl
  · have hAv : (A ++ [v]).length = 4 := by simp [hA]
    rw [List.append_assoc, List.drop_left' hAv, List.take_left' hU]

theorem byteAt_of_drop {n : Nat} (buf : Buffer n) (i : Nat) (h : i < n) (v : Byte)
    (tl : List Byte) (hd : buf.val.drop i = v :: tl) : byteAt buf i h = v := by
  have hg := byteAt_glue buf i h
  rw [hd] at hg
  exact (List.cons.inj hg).1

theorem request_ofBytes_toBytes (o : ByteOrder) (x : TimeRequest) :
    TimeRequest.ofBytes o (x.toBytes o) = x := by
  obtain ⟨⟨A, hA⟩, v, ⟨U, hU⟩, c⟩ := x
  have hf := header_fields A U (encodeU64 o c.val).val v hA hU
  simp only [TimeRequest.ofBytes, TimeRequest.mk.injEq]
  refine ⟨Subtype.ext ?_, ?_, Subtype.ext ?_, ?_⟩
  · simpa [slice, TimeRequest.toBytes] using hf.1
  · exact byteAt_of_drop _ 3 _ v _ hf.2.1
  · simpa [slice, TimeRequest.toBytes] using hf.2.2
  · exact loadU64_append o _ 8 _ (A ++ [v] ++ U) [] c (by simp [hA, hU])
      (by simp [TimeRequest.toBytes])

theorem reply_ofBytes_toBytes (o : ByteOrder) (x : TimeReply) :
    TimeReply.ofBytes o (x.toBytes o) = x := by
  obtain ⟨⟨A, hA⟩, v, ⟨U, hU⟩, c, ts⟩ := x
  have hc := (encodeU64 o c.val).property
  have hf := header_fields A U ((encodeU64 o c.val).val ++ (encodeU64 o ts.val).val) v hA hU
  simp only [← List.append_assoc] at hf
  simp only [TimeReply.ofBytes, TimeReply.mk.injEq]
  refine ⟨Subtype.ext ?_, ?_, Subtype.ext ?_, ?_, ?_⟩
  · simpa [slice, TimeReply.toBytes] using hf.1
  · exact byteAt_of_drop _ 3 _ v _ hf.2.1
  · simpa [slice, TimeReply.toBytes] using hf.2.2
  · exact loadU64_append o _ 8 _ (A ++ [v] ++ U) (encodeU64 o ts.val).val c (by simp [hA, hU])
      (by simp [TimeReply.toBytes])
  · exact loadU64_append o _ 16 _ (A ++ [v] ++ U ++ (encodeU64 o c.val).val) [] ts
      (by simp [hA, hU, hc]) (by simp [TimeReply.toBytes])

/-- C8: on a host of either byte order, reading the 24 octets of the wire form
of a `TimeReply` as a `TimeReply` gives the record back, and likewise for the 16
octets of a `TimeRequest`; conversely every 16-octet buffer is the wire form of
exactly one `TimeRequest` and every 24-octet buffer of exactly one
`TimeReply`. -/
theorem wire_layout_round_trip (o : ByteOrder) :
    (∀ x : TimeReply, TimeReply.ofBytes o (x.toBytes o) = x)
      ∧ (∀ x : TimeRequest, TimeRequest.ofBytes o (x.toBytes o) = x)
      ∧ (∀ buf : Buffer TimeRequestPacketSize, ∃! x : TimeRequest, x.toBytes o = buf)
      ∧ (∀ buf : Buffer TimeReplyPacketSize, ∃! x : TimeReply, x.toBytes o = buf) := by
  refine ⟨reply_ofBytes_toBytes o, request_ofBytes_toBytes o, ?_, ?_⟩
  · intro buf
    refine ⟨TimeRequest.ofBytes o buf, request_toBytes_ofBytes o buf, ?_⟩
    intro y hy
    rw [← hy, request_ofBytes_toBytes]
  · intro buf
    refine ⟨TimeReply.ofBytes o buf, reply_toBytes_ofBytes o buf, ?_⟩
    intro y hy
    rw [← hy, reply_ofBytes_toBytes]

end TimeSyncServer
